import Mathlib

/-!
Shallow embedding of the query-resolution and trending-ranking core of the
`inshorts` news service (`src/app/repository.py`, `src/app/services.py`,
`src/app/llm.py`).

Modelling conventions:
* Python floats are modelled as exact rationals (`ℚ`).
* Timestamps are rationals counting seconds; `datetime.utcnow()` / SQLite
  `datetime('now')` become an explicit `now : ℚ` parameter.
* The transcendental functions of Python's `math` module (`exp`, `sin`,
  `cos`, `asin`, `sqrt`, `radians`) are external to the repository; they are
  passed in as an explicit `FloatOps` record so every definition stays
  executable.  Theorems that need facts about them (e.g. `sin 0 = 0`) state
  those facts as hypotheses, which the real functions satisfy.
* SQLAlchemy queries over the article / interaction tables become list
  transformations over `List Article` / `List Interaction`; `ORDER BY k DESC`
  is a stable insertion sort on the key.
-/

namespace Inshorts

/-- ASCII whitespace recognised by Python's `str.split` / regex `\s`. -/
def isSpacePy (c : Char) : Bool :=
  c == ' ' || c == '\t' || c == '\n' || c == '\r' || c == '\x0b' || c == '\x0c'

/-- ASCII `[A-Z]`, the character class used by the entity regex in `llm.py`. -/
def isUpperPy (c : Char) : Bool := 'A' ≤ c && c ≤ 'Z'

/-- ASCII `[a-z]`. -/
def isLowerPy (c : Char) : Bool := 'a' ≤ c && c ≤ 'z'

/-- ASCII `[a-zA-Z]`, the character class used by the entity regex. -/
def isAlphaPy (c : Char) : Bool := isUpperPy c || isLowerPy c

/-- ASCII `\w` = `[a-zA-Z0-9_]`, used by the keyword split `re.split("\W+", ...)`. -/
def isWordCharPy (c : Char) : Bool := isAlphaPy c || c.isDigit || c == '_'

/-- Python `str.lower()` restricted to ASCII (all inputs considered here are ASCII). -/
def pyLowerStr (s : String) : String := String.mk (s.data.map Char.toLower)

/-- Is `n` a prefix of `h`?  (List-of-characters version, used for substring tests.) -/
def isPrefixOfL : List Char → List Char → Bool
  | [], _ => true
  | _ :: _, [] => false
  | a :: as, b :: bs => a == b && isPrefixOfL as bs

/-- Substring containment on character lists: Python's `needle in hay`,
also SQLite's `instr(hay, needle) > 0`. -/
def containsSubL : List Char → List Char → Bool
  | needle, [] => needle.isEmpty
  | needle, c :: rest => isPrefixOfL needle (c :: rest) || containsSubL needle rest

/-- Substring containment on strings. -/
def containsS (needle hay : String) : Bool := containsSubL needle.data hay.data

/-- Split a character list into the maximal runs separated by characters
satisfying `sep`; empty runs are dropped.  With `sep := isSpacePy` this is
Python's `str.split()` (no arguments). -/
def wordsBy (sep : Char → Bool) : List Char → List (List Char)
  | [] => []
  | c :: rest =>
    if sep c then wordsBy sep rest
    else (c :: rest.takeWhile (fun d => !sep d)) :: wordsBy sep (rest.dropWhile (fun d => !sep d))
termination_by l => l.length
decreasing_by
  · simp
  · exact Nat.lt_succ_of_le (List.dropWhile_sublist (fun d => !sep d)).length_le

/-- Python `str.split()` on a string. -/
def pySplit (s : String) : List String := (wordsBy isSpacePy s.data).map String.mk

/-- The `math` module functions used by `repository.py`, supplied as data
(they are external to the repository). -/
structure FloatOps where
  exp : ℚ → ℚ
  sin : ℚ → ℚ
  cos : ℚ → ℚ
  asin : ℚ → ℚ
  sqrt : ℚ → ℚ
  radians : ℚ → ℚ

/-- The `Article` row of `models.py`.  `publication_date` is a timestamp in
seconds; optional columns are `Option`-valued. -/
structure Article where
  id : String
  title : String
  description : String
  url : String
  publication_date : ℚ
  source_name : String
  category : List String
  relevance_score : ℚ
  latitude : Option ℚ
  longitude : Option ℚ
  llm_summary : Option String
deriving DecidableEq

/-- The `Interaction` row of `models.py` (the autoincrement id plays no role). -/
structure Interaction where
  article_id : String
  event_type : String
  weight : ℚ
  latitude : Option ℚ
  longitude : Option ℚ
  timestamp : ℚ
deriving DecidableEq

/-- Insert `a` into a list sorted descending by `key`, after every element
whose key is at least `key a` (stable descending insertion). -/
def insertDescBy (key : α → ℚ) (a : α) : List α → List α
  | [] => [a]
  | b :: bs => if key a ≤ key b then b :: insertDescBy key a bs else a :: b :: bs

/-- Stable sort, descending by `key`: the embedding of `ORDER BY key DESC`
and of Python's `list.sort(key=..., reverse=True)`. -/
def sortDescBy (key : α → ℚ) : List α → List α
  | [] => []
  | a :: as => insertDescBy key a (sortDescBy key as)

/-- Insert `a` into a list sorted ascending by `key` (stable). -/
def insertAscBy (key : α → ℚ) (a : α) : List α → List α
  | [] => [a]
  | b :: bs => if key b ≤ key a then b :: insertAscBy key a bs else a :: b :: bs

/-- Stable sort, ascending by `key`: the embedding of `list.sort(key=...)`. -/
def sortAscBy (key : α → ℚ) : List α → List α
  | [] => []
  | a :: as => insertAscBy key a (sortAscBy key as)

/-- `repository.haversine_distance`: great-circle distance with Earth radius
6371 km, the `math` functions taken from `F`. -/
def haversine_distance (F : FloatOps) (lat1 lon1 lat2 lon2 : ℚ) : ℚ :=
  let lon1r := F.radians lon1
  let lat1r := F.radians lat1
  let lon2r := F.radians lon2
  let lat2r := F.radians lat2
  let dlon := lon2r - lon1r
  let dlat := lat2r - lat1r
  let a := F.sin (dlat / 2) ^ 2 + F.cos lat1r * F.cos lat2r * F.sin (dlon / 2) ^ 2
  let c := 2 * F.asin (F.sqrt a)
  6371 * c

/-- `repository.list_by_category`: newest first, then keep the articles whose
lower-cased category list contains the normalized category, truncate. -/
def list_by_category (db : List Article) (category : String) (limit : ℕ) : List Article :=
  let normalized := pyLowerStr category
  (((sortDescBy (fun a => a.publication_date) db).filter
      (fun a => (a.category.map pyLowerStr).contains normalized)).take limit)

/-- `repository.list_by_source`: case-insensitive exact source match, newest
first, truncated. -/
def list_by_source (db : List Article) (source : String) (limit : ℕ) : List Article :=
  ((sortDescBy (fun a => a.publication_date)
      (db.filter (fun a => pyLowerStr a.source_name == pyLowerStr source))).take limit)

/-- `repository.list_by_score`: articles with `relevance_score >= threshold`,
highest first, truncated. -/
def list_by_score (db : List Article) (threshold : ℚ) (limit : ℕ) : List Article :=
  ((sortDescBy (fun a => a.relevance_score)
      (db.filter (fun a => threshold ≤ a.relevance_score))).take limit)

/-- The lower-cased whitespace-split token list of a query
(`query.lower().split()`; the subsequent `strip()` and emptiness filter are
no-ops on `split()` output). -/
def searchTokens (query : String) : List (List Char) :=
  wordsBy isSpacePy (pyLowerStr query).data

/-- One token's contribution in `list_by_search`: the SQL
`CASE WHEN instr(lower(title), token) > 0 THEN 2
      WHEN instr(lower(description), token) > 0 THEN 1 ELSE 0 END`. -/
def tokenCase (title description : List Char) (token : List Char) : ℚ :=
  if containsSubL token title then 2
  else if containsSubL token description then 1
  else 0

/-- The ordering key of `list_by_search`: `relevance_score * 0.5 + score_case`. -/
def searchKey (tokens : List (List Char)) (a : Article) : ℚ :=
  a.relevance_score * (1 / 2) +
    ((tokens.map (tokenCase (pyLowerStr a.title).data (pyLowerStr a.description).data)).sum)

/-- `repository.list_by_search`. -/
def list_by_search (db : List Article) (query : String) (limit : ℕ) : List Article :=
  let tokens := searchTokens query
  if tokens.isEmpty then []
  else (sortDescBy (searchKey tokens) db).take limit

/-- `repository.list_by_nearby`: geo-tagged articles within `radius_km`,
annotated with their distance, nearest first, truncated. -/
def list_by_nearby (F : FloatOps) (db : List Article) (lat lon radius_km : ℚ)
    (limit : ℕ) : List Article :=
  let results := (db.filter (fun a => a.latitude.isSome && a.longitude.isSome)).filterMap
    (fun a =>
      match a.latitude, a.longitude with
      | some alat, some alon =>
        let distance := haversine_distance F lat lon alat alon
        if distance ≤ radius_km then some (a, distance) else none
      | _, _ => none)
  ((sortAscBy (fun p => p.2) results).take limit).map (fun p => p.1)

/-- The SQL age penalty of `trending_articles`:
`exp(-abs(strftime('%s', now) - strftime('%s', timestamp)) / 3600)`. -/
def agePenalty (F : FloatOps) (now ts : ℚ) : ℚ := F.exp (-|now - ts| / 3600)

/-- The window filter of `trending_articles`:
`Interaction.timestamp >= utcnow() - timedelta(hours=window_hours)`. -/
def eventsInWindow (events : List Interaction) (now windowHours : ℚ) : List Interaction :=
  events.filter (fun e => decide (now - windowHours * 3600 ≤ e.timestamp))

/-- The distinct article ids of the `GROUP BY article_id` over the windowed
events. -/
def groupIds (events : List Interaction) (now windowHours : ℚ) : List String :=
  ((eventsInWindow events now windowHours).map (fun e => e.article_id)).dedup

/-- One group's aggregate of the trending subquery:
`SUM(weight * age_penalty)` over the windowed events of `aid`. -/
def groupScore (F : FloatOps) (events : List Interaction) (now windowHours : ℚ)
    (aid : String) : ℚ :=
  (((eventsInWindow events now windowHours).filter (fun e => e.article_id == aid)).map
      (fun e => e.weight * agePenalty F now e.timestamp)).sum

/-- The candidate rows of `trending_articles`: articles joined to their group
score, ordered by score descending, limited to `limit * 3`. -/
def trendingCandidates (F : FloatOps) (db : List Article) (events : List Interaction)
    (now : ℚ) (limit : ℕ) (windowHours : ℚ) : List (Article × ℚ) :=
  let ids := groupIds events now windowHours
  let rows := (db.filter (fun a => ids.contains a.id)).map
    (fun a => (a, groupScore F events now windowHours a.id))
  (sortDescBy (fun p => p.2) rows).take (limit * 3)

/-- The `scored` list of `trending_articles`: candidates without both
coordinates are skipped; the rest get `base_score * (1 + geo_bonus)` with
`geo_bonus = max(0, 1 - distance_km / 50)`. -/
def trendingScored (F : FloatOps) (db : List Article) (events : List Interaction)
    (now lat lon : ℚ) (limit : ℕ) (windowHours : ℚ) : List (Article × ℚ) :=
  (trendingCandidates F db events now limit windowHours).filterMap
    (fun p =>
      match p.1.latitude, p.1.longitude with
      | some alat, some alon =>
        let distance_km := haversine_distance F lat lon alat alon
        let geo_bonus := max 0 (1 - distance_km / 50)
        some (p.1, p.2 * (1 + geo_bonus))
      | _, _ => none)

/-- `repository.trending_articles`: the scored candidates sorted descending by
final score, truncated to `limit`. -/
def trending_articles (F : FloatOps) (db : List Article) (events : List Interaction)
    (now lat lon : ℚ) (limit : ℕ) (windowHours : ℚ := 24) : List Article :=
  ((sortDescBy (fun p => p.2) (trendingScored F db events now lat lon limit windowHours)).take
      limit).map (fun p => p.1)

/-- Greedy continuation of an entity match: the `(?:\s[A-Z][a-zA-Z]+)*` part
of the entity regex of `llm.py`.  Returns the matched extension together with
the unconsumed remainder (bundled with a length bound for termination). -/
def extendRun : (l : List Char) → List Char × { r : List Char // r.length ≤ l.length }
  | s :: c :: d :: rest =>
    if isSpacePy s && isUpperPy c && isAlphaPy d then
      let letters := rest.takeWhile isAlphaPy
      let er := extendRun (rest.dropWhile isAlphaPy)
      (s :: c :: d :: (letters ++ er.1),
        ⟨er.2.1, by
          refine Nat.le_trans er.2.2 (Nat.le_trans (List.dropWhile_sublist isAlphaPy).length_le ?_)
          simp only [List.length_cons]
          omega⟩)
    else ([], ⟨s :: c :: d :: rest, Nat.le_refl _⟩)
  | l => ([], ⟨l, Nat.le_refl _⟩)
termination_by l => l.length
decreasing_by
  exact Nat.lt_of_le_of_lt (List.dropWhile_sublist isAlphaPy).length_le (by
    simp only [List.length_cons]; omega)

/-- Left-to-right scan of `re.findall(r"[A-Z][a-zA-Z]+(?:\s[A-Z][a-zA-Z]+)*", q)`:
a match starts at an `[A-Z]` character followed by at least one `[a-zA-Z]`
character, extends greedily, and scanning resumes after the match. -/
def entityScanAux : List Char → List (List Char)
  | [] => []
  | c :: rest =>
    if isUpperPy c && !(rest.takeWhile isAlphaPy).isEmpty then
      (c :: (rest.takeWhile isAlphaPy ++ (extendRun (rest.dropWhile isAlphaPy)).1)) ::
        entityScanAux (extendRun (rest.dropWhile isAlphaPy)).2.1
    else entityScanAux rest
termination_by l => l.length
decreasing_by
  · exact Nat.lt_succ_of_le (Nat.le_trans (extendRun (rest.dropWhile isAlphaPy)).2.2
      (List.dropWhile_sublist isAlphaPy).length_le)
  · simp

/-- The `entities` component of `LLMClient._fallback_parse`. -/
def fallback_entities (q : String) : List String :=
  (entityScanAux q.data).map String.mk

/-- The fixed gazetteer of `LLMClient._fallback_parse`. -/
def gazetteer : List String :=
  ["palo alto", "san francisco", "paris", "tokyo", "berlin", "london", "fresno",
    "new york times"]

/-- The `locations` component of `LLMClient._fallback_parse`: the entities
whose lower-cased form is in the gazetteer. -/
def fallback_locations (q : String) : List String :=
  (fallback_entities q).filter (fun t => gazetteer.contains (pyLowerStr t))

/-- The stop-word set of `LLMClient._fallback_parse`. -/
def stopWords : List String := ["the", "in", "from", "near", "me"]

/-- The `keywords` component of `LLMClient._fallback_parse`:
`re.split(r"\W+", query.lower())`, dropping empty tokens and stop words. -/
def fallback_keywords (q : String) : List String :=
  ((wordsBy (fun c => !isWordCharPy c) (pyLowerStr q).data).map String.mk).filter
    (fun w => !stopWords.contains w)

/-- The `intent` component of `LLMClient._fallback_parse`. -/
def fallback_intent (q : String) : String :=
  let lowered := pyLowerStr q
  if containsS "near" lowered || containsS "nearby" lowered || containsS "around" lowered then
    "nearby"
  else if containsS "top" lowered || containsS "latest" lowered then "category"
  else if containsS "from" lowered && containsS "news" lowered then "source"
  else if containsS "score" lowered then "score"
  else "search"

/-- The `ParsedQuery` dataclass of `llm.py`. -/
structure ParsedQuery where
  entities : List String
  keywords : List String
  locations : List String
  intent : String
deriving DecidableEq

/-- `LLMClient._fallback_parse`. -/
def fallback_parse (q : String) : ParsedQuery :=
  ⟨fallback_entities q, fallback_keywords q, fallback_locations q, fallback_intent q⟩

/-- Word predicate of claim C6 as written: a word starting with an uppercase
letter. -/
def capWordClaim (w : List Char) : Bool :=
  match w with
  | c :: _ => isUpperPy c
  | [] => false

/-- A word fully matching the regex word `[A-Z][a-zA-Z]+`: an uppercase
letter followed by at least one more ASCII letter. -/
def entWord (w : List Char) : Bool :=
  match w with
  | c :: d :: rest => isUpperPy c && isAlphaPy d && rest.all isAlphaPy
  | _ => false

/-- Maximal runs of consecutive elements satisfying `p`. -/
def runsBy (p : α → Bool) : List α → List (List α)
  | [] => []
  | a :: as =>
    if p a then (a :: as.takeWhile p) :: runsBy p (as.dropWhile p)
    else runsBy p as
termination_by l => l.length
decreasing_by
  · exact Nat.lt_succ_of_le (List.dropWhile_sublist p).length_le
  · simp

/-- Join words with single spaces. -/
def joinW : List (List Char) → List Char
  | [] => []
  | [w] => w
  | w :: ws => w ++ ' ' :: joinW ws

/-- Separator-prefixed join: empty for no words, otherwise a single space
followed by the joined words. -/
def sepJoin (ws : List (List Char)) : List Char :=
  match ws with
  | [] => []
  | _ :: _ => ' ' :: joinW ws

/-- Entity extraction as claim C6 states it: the maximal runs of consecutive
capitalized words of the whitespace-split text, each run joined by single
spaces. -/
def claimEntities (q : String) : List String :=
  (runsBy capWordClaim (wordsBy isSpacePy q.data)).map (fun r => String.mk (joinW r))

/-- Words on which the regex scan and the word-level description coincide:
nonempty, all ASCII letters, no uppercase letter after the first character. -/
def plainWord (w : List Char) : Bool :=
  !w.isEmpty && w.all isAlphaPy && w.tail.all (fun c => !isUpperPy c)

/-- Python's `round` on a rational: round half to even (banker's rounding). -/
def pyRoundQ (q : ℚ) : ℤ :=
  let f := Rat.floor q
  let r := q - (f : ℚ)
  if r < 1 / 2 then f
  else if 1 / 2 < r then f + 1
  else if f % 2 = 0 then f else f + 1

/-- Fixed two-decimal formatting `f"{x:.2f}"` of a rational (rounding half to
even on the exact value). -/
def fmt2 (q : ℚ) : String :=
  let n := pyRoundQ (q * 100)
  let m := n.natAbs
  (if n < 0 then "-" else "") ++ toString (m / 100) ++ "." ++
    (if m % 100 < 10 then "0" else "") ++ toString (m % 100)

/-- `services._cache_key`: quantize both coordinates to the configured
precision and render `"<latBucket>:<lonBucket>"` with two decimals each. -/
def cache_key (precision lat lon : ℚ) : String :=
  let lat_bucket := (pyRoundQ (lat / precision) : ℚ) * precision
  let lon_bucket := (pyRoundQ (lon / precision) : ℚ) * precision
  fmt2 lat_bucket ++ ":" ++ fmt2 lon_bucket

/-- One entry of the trending cache: bucket key, absolute expiry time and
cached value. -/
structure CacheEntry (α : Type) where
  key : String
  expiresAt : ℚ
  value : α
deriving DecidableEq

/-- Modelled from the spec: `cachetools.TTLCache` (an external library, not
part of this repository's sources): a bounded key-value table whose entries
expire `ttl` seconds after insertion and which evicts the least-recently-used
entry under capacity pressure.  Entries are kept most-recently-used first;
the ambient clock becomes an explicit `now` argument of each operation. -/
structure TTLCacheModel (α : Type) where
  maxsize : ℕ
  ttl : ℚ
  entries : List (CacheEntry α)
deriving DecidableEq

/-- `key in cache`: an unexpired entry with this key exists (membership tests
do not update recency). -/
def cacheContains (c : TTLCacheModel α) (now : ℚ) (key : String) : Bool :=
  c.entries.any (fun e => e.key == key && decide (now < e.expiresAt))

/-- `cache[key]` on a hit: the stored value of the first unexpired entry. -/
def cacheGet (c : TTLCacheModel α) (now : ℚ) (key : String) : Option α :=
  (c.entries.find? (fun e => e.key == key && decide (now < e.expiresAt))).map
    (fun e => e.value)

/-- The recency update a successful `cache[key]` performs: the entry moves to
the most-recently-used position. -/
def cacheTouch (c : TTLCacheModel α) (key : String) : TTLCacheModel α :=
  match c.entries.find? (fun e => e.key == key) with
  | none => c
  | some e => ⟨c.maxsize, c.ttl, e :: c.entries.eraseP (fun e2 => e2.key == key)⟩

/-- `cache[key] = value`: expired entries are purged, an existing entry for
the key is replaced, the least-recently-used entry is evicted when the table
is full, and the new entry becomes most recent with expiry `now + ttl`. -/
def cacheInsert (c : TTLCacheModel α) (now : ℚ) (key : String) (v : α) :
    TTLCacheModel α :=
  let live := c.entries.filter (fun e => decide (now < e.expiresAt))
  let without := live.filter (fun e => !(e.key == key))
  let trimmed := if c.maxsize ≤ without.length then without.dropLast else without
  ⟨c.maxsize, c.ttl, ⟨key, now + c.ttl, v⟩ :: trimmed⟩

/-- `services.get_trending_articles`: look the bucket key up in the trending
cache; on a hit return the cached list, otherwise run the trending pipeline
and cache the result.  The Bool in the result records whether the compute
path (`trending_articles`) ran. -/
def get_trending_articles (F : FloatOps) (db : List Article) (events : List Interaction)
    (precision : ℚ) (cache : TTLCacheModel (List Article)) (now lat lon : ℚ)
    (limit : ℕ) : List Article × TTLCacheModel (List Article) × Bool :=
  let key := cache_key precision lat lon
  if cacheContains cache now key then
    ((cacheGet cache now key).getD [], cacheTouch cache key, false)
  else
    let articles := trending_articles F db events now lat lon limit
    (articles, cacheInsert cache now key articles, true)

/-- Value of a digit run as a natural number. -/
def digitsVal (ds : List Char) : ℕ :=
  ds.foldl (fun n c => n * 10 + (c.toNat - '0'.toNat)) 0

/-- Python's `float(str)` on finite decimal literals: optional surrounding
whitespace, optional sign, digits with an optional fractional part and an
optional decimal exponent (`inf`, `nan` and underscore separators lie outside
the rational model and are rejected). -/
def pyFloat (s : String) : Option ℚ :=
  let cs := ((s.data.dropWhile isSpacePy).reverse.dropWhile isSpacePy).reverse
  let signAndRest : ℚ × List Char :=
    match cs with
    | '+' :: rest => (1, rest)
    | '-' :: rest => (-1, rest)
    | _ => (1, cs)
  let cs1 := signAndRest.2
  let intPart := cs1.takeWhile Char.isDigit
  let cs2 := cs1.dropWhile Char.isDigit
  let fracAndRest : List Char × List Char :=
    match cs2 with
    | '.' :: rest => (rest.takeWhile Char.isDigit, rest.dropWhile Char.isDigit)
    | _ => ([], cs2)
  let fracPart := fracAndRest.1
  let cs3 := fracAndRest.2
  let expParse : Bool × ℤ × List Char :=
    match cs3 with
    | 'e' :: rest | 'E' :: rest =>
      let esignAndRest : ℤ × List Char :=
        match rest with
        | '+' :: r => (1, r)
        | '-' :: r => (-1, r)
        | _ => (1, rest)
      let eDigits := esignAndRest.2.takeWhile Char.isDigit
      (!eDigits.isEmpty, esignAndRest.1 * (digitsVal eDigits : ℤ),
        esignAndRest.2.dropWhile Char.isDigit)
    | _ => (true, 0, cs3)
  if (intPart.isEmpty && fracPart.isEmpty) || !expParse.1 || !expParse.2.2.isEmpty then
    none
  else
    let mantissa : ℚ :=
      (digitsVal intPart : ℚ) + (digitsVal fracPart : ℚ) / (10 : ℚ) ^ fracPart.length
    some (signAndRest.1 * mantissa * (10 : ℚ) ^ expParse.2.1)

/-- Python truthiness of the optional `value` argument (`None` and `""` are
falsy). -/
def truthy : Option String → Bool
  | some s => !s.isEmpty
  | none => false

/-- `value or ""`. -/
def orEmpty : Option String → String
  | some s => s
  | none => ""

/-- `services.resolve_query`: dispatch a resolved intent to the matching
retrieval strategy; unmatched intents and failed preconditions fall through
to free-text search. -/
def resolve_query (F : FloatOps) (db : List Article) (intent : String)
    (value : Option String) (lat lon : Option ℚ) (limit : ℕ) : List Article :=
  if intent == "category" && truthy value then list_by_category db (orEmpty value) limit
  else if intent == "source" && truthy value then list_by_source db (orEmpty value) limit
  else if intent == "score" && truthy value then
    let threshold := (pyFloat (orEmpty value)).getD (7 / 10)
    list_by_score db threshold limit
  else if intent == "nearby" && lat.isSome && lon.isSome then
    list_by_nearby F db (lat.getD 0) (lon.getD 0) 10 limit
  else if intent == "search" then list_by_search db (orEmpty value) limit
  else list_by_search db (orEmpty value) limit

/-- Search ranking key as claim C8 states it: per token 2 for a title
substring match, else 1 for a description match, else 0, summed across
tokens, plus `relevanceScore * 0.5`. -/
def claimSearchScore (tokens : List (List Char)) (a : Article) : ℚ :=
  ((tokens.map (tokenCase (pyLowerStr a.title).data (pyLowerStr a.description).data)).sum) +
    a.relevance_score * (1 / 2)

/-- Intent classification as claim C5 states it: nearby, else category, else
source, else score, else search, each by substring tests on the lower-cased
text. -/
def claimIntent (q : String) : String :=
  let lowered := pyLowerStr q
  if containsS "near" lowered || containsS "nearby" lowered || containsS "around" lowered then
    "nearby"
  else if containsS "top" lowered || containsS "latest" lowered then "category"
  else if containsS "from" lowered && containsS "news" lowered then "source"
  else if containsS "score" lowered then "score"
  else "search"

/-- Concrete `FloatOps` used to instantiate the universally quantified
theorems at evaluable inputs: `exp ≡ 1`, trig ≡ 0, `radians = id`. -/
def constOps : FloatOps := ⟨fun _ => 1, fun _ => 0, fun _ => 0, fun _ => 0, fun _ => 0, fun x => x⟩

/-- Concrete `FloatOps` whose haversine distance is constantly 50 km
(`6371 * 2 * asin(...) = 50` when `asin ≡ 25/6371`). -/
def fiftyOps : FloatOps :=
  ⟨fun _ => 1, fun _ => 0, fun _ => 0, fun _ => 25 / 6371, fun _ => 0, fun x => x⟩

/-- A sample geo-tagged article at the origin. -/
def sampleArticle : Article := ⟨"a", "t", "d", "u", 0, "s", [], 0, some 0, some 0, none⟩

/-- A sample article without coordinates. -/
def sampleArticleNoGeo : Article := ⟨"b", "t", "d", "u", 0, "s", [], 0, none, none, none⟩

/-- A sample interaction event on article `"a"`. -/
def sampleEvent : Interaction := ⟨"a", "view", 1, none, none, 0⟩

/-- A sample interaction event on article `"b"`. -/
def sampleEventB : Interaction := ⟨"b", "view", 1, none, none, 0⟩

theorem insertDescBy_perm (key : α → ℚ) (a : α) (l : List α) :
    List.Perm (insertDescBy key a l) (a :: l) := by
  induction l with
  | nil => simp [insertDescBy]
  | cons b bs ih =>
    simp only [insertDescBy]
    by_cases h : key a ≤ key b
    · simp only [if_pos h]
      exact (ih.cons b).trans (List.Perm.swap a b bs)
    · simp [if_neg h]

theorem sortDescBy_perm (key : α → ℚ) (l : List α) :
    List.Perm (sortDescBy key l) l := by
  induction l with
  | nil => simp [sortDescBy]
  | cons a as ih => exact (insertDescBy_perm key a _).trans (ih.cons a)

theorem mem_sortDescBy (key : α → ℚ) (l : List α) (x : α) :
    x ∈ sortDescBy key l ↔ x ∈ l :=
  (sortDescBy_perm key l).mem_iff

theorem insertAscBy_perm (key : α → ℚ) (a : α) (l : List α) :
    List.Perm (insertAscBy key a l) (a :: l) := by
  induction l with
  | nil => simp [insertAscBy]
  | cons b bs ih =>
    simp only [insertAscBy]
    by_cases h : key b ≤ key a
    · simp only [if_pos h]
      exact (ih.cons b).trans (List.Perm.swap a b bs)
    · simp [if_neg h]

theorem sortAscBy_perm (key : α → ℚ) (l : List α) :
    List.Perm (sortAscBy key l) l := by
  induction l with
  | nil => simp [sortAscBy]
  | cons a as ih => exact (insertAscBy_perm key a _).trans (ih.cons a)

theorem insertDescBy_pairwise (key : α → ℚ) (a : α) (l : List α)
    (h : l.Pairwise (fun x y => key y ≤ key x)) :
    (insertDescBy key a l).Pairwise (fun x y => key y ≤ key x) := by
  induction l with
  | nil => simp [insertDescBy]
  | cons b bs ih =>
    rcases List.pairwise_cons.mp h with ⟨hb, hbs⟩
    simp only [insertDescBy]
    by_cases hab : key a ≤ key b
    · simp only [if_pos hab]
      refine List.pairwise_cons.mpr ⟨?_, ih hbs⟩
      intro y hy
      rcases List.mem_cons.mp ((insertDescBy_perm key a bs).mem_iff.mp hy) with rfl | hmem
      · exact hab
      · exact hb y hmem
    · simp only [if_neg hab]
      refine List.pairwise_cons.mpr ⟨?_, h⟩
      intro y hy
      rcases List.mem_cons.mp hy with rfl | hmem
      · exact le_of_lt (lt_of_not_le hab)
      · exact le_trans (hb y hmem) (le_of_lt (lt_of_not_le hab))

theorem sortDescBy_pairwise (key : α → ℚ) (l : List α) :
    (sortDescBy key l).Pairwise (fun x y => key y ≤ key x) := by
  induction l with
  | nil => simp [sortDescBy]
  | cons a as ih => exact insertDescBy_pairwise key a _ ih

theorem insertDescBy_congr (k1 k2 : α → ℚ) (a : α) (l : List α)
    (ha : k1 a = k2 a) (hl : ∀ x ∈ l, k1 x = k2 x) :
    insertDescBy k1 a l = insertDescBy k2 a l := by
  induction l with
  | nil => rfl
  | cons b bs ih =>
    have hb := hl b (List.mem_cons_self b bs)
    simp only [insertDescBy]
    rw [ha, hb, ih (fun x hx => hl x (List.mem_cons_of_mem b hx))]

theorem sortDescBy_congr (k1 k2 : α → ℚ) (l : List α)
    (h : ∀ x ∈ l, k1 x = k2 x) : sortDescBy k1 l = sortDescBy k2 l := by
  induction l with
  | nil => rfl
  | cons a as ih =>
    simp only [sortDescBy]
    rw [ih (fun x hx => h x (List.mem_cons_of_mem a hx)),
      insertDescBy_congr k1 k2 a _ (h a (List.mem_cons_self a as))
        (fun x hx => h x (List.mem_cons_of_mem a ((mem_sortDescBy k2 as x).mp hx)))]

theorem mem_take_of_countP_le (key : α → ℚ) (l : List α) (limit : ℕ) (a : α)
    (hp : l.Pairwise (fun x y => key y ≤ key x)) (ha : a ∈ l)
    (hc : l.countP (fun b => decide (key a ≤ key b)) ≤ limit) :
    a ∈ l.take limit := by
  induction l generalizing limit with
  | nil => cases ha
  | cons b bs ih =>
    rcases List.pairwise_cons.mp hp with ⟨hb, hbs⟩
    rcases List.mem_cons.mp ha with rfl | hmem
    · cases limit with
      | zero =>
        rw [List.countP_cons] at hc
        simp at hc
      | succ n => simp [List.take_succ_cons]
    · have hba : key a ≤ key b := hb a hmem
      have hc' : bs.countP (fun x => decide (key a ≤ key x)) + 1 ≤ limit := by
        rw [List.countP_cons] at hc
        simpa [hba] using hc
      cases limit with
      | zero => omega
      | succ n =>
        simp only [List.take_succ_cons, List.mem_cons]
        exact Or.inr (ih n hbs hmem (by omega))

theorem mem_trendingScored_iff (F : FloatOps) (db : List Article) (events : List Interaction)
    (now lat lon : ℚ) (limit : ℕ) (windowHours : ℚ) (a : Article) (s : ℚ) :
    (a, s) ∈ trendingScored F db events now lat lon limit windowHours ↔
      ∃ b alat alon, (a, b) ∈ trendingCandidates F db events now limit windowHours ∧
        a.latitude = some alat ∧ a.longitude = some alon ∧
        s = b * (1 + max 0 (1 - haversine_distance F lat lon alat alon / 50)) := by
  unfold trendingScored
  rw [List.mem_filterMap]
  constructor
  · rintro ⟨⟨a', b⟩, hmem, hg⟩
    cases hlat : a'.latitude with
    | none => rw [hlat] at hg; simp at hg
    | some alat =>
      cases hlon : a'.longitude with
      | none => rw [hlat, hlon] at hg; simp at hg
      | some alon =>
        rw [hlat, hlon] at hg
        simp only [Option.some.injEq, Prod.mk.injEq] at hg
        obtain ⟨rfl, rfl⟩ := hg
        exact ⟨b, alat, alon, hmem, hlat, hlon, rfl⟩
  · rintro ⟨b, alat, alon, hmem, hlat, hlon, rfl⟩
    exact ⟨(a, b), hmem, by simp [hlat, hlon]⟩

theorem mem_trending_articles (F : FloatOps) (db : List Article) (events : List Interaction)
    (now lat lon : ℚ) (limit : ℕ) (windowHours : ℚ) (a : Article)
    (h : a ∈ trending_articles F db events now lat lon limit windowHours) :
    ∃ s, (a, s) ∈ trendingScored F db events now lat lon limit windowHours := by
  unfold trending_articles at h
  rcases List.mem_map.mp h with ⟨p, hp, rfl⟩
  refine ⟨p.2, ?_⟩
  exact (sortDescBy_perm _ _).mem_iff.mp (List.take_subset _ _ hp)

theorem mem_list_by_nearby_isSome (F : FloatOps) (db : List Article)
    (lat lon radius_km : ℚ) (limit : ℕ) (a : Article)
    (h : a ∈ list_by_nearby F db lat lon radius_km limit) :
    a.latitude.isSome ∧ a.longitude.isSome := by
  simp only [list_by_nearby] at h
  rcases List.mem_map.mp h with ⟨p, hp, rfl⟩
  have hp2 := (sortAscBy_perm (fun p : Article × ℚ => p.2) _).mem_iff.mp
    (List.take_subset _ _ hp)
  rcases List.mem_filterMap.mp hp2 with ⟨a', ha', hg⟩
  have hflt := (List.mem_filter.mp ha').2
  cases hlat : a'.latitude with
  | none => rw [hlat] at hg; simp at hg
  | some alat =>
    cases hlon : a'.longitude with
    | none => rw [hlat, hlon] at hg; simp at hg
    | some alon =>
      rw [hlat, hlon] at hg
      by_cases hd : haversine_distance F lat lon alat alon ≤ radius_km
      · simp only [hd, if_true, Option.some.injEq] at hg
        rw [← hg]
        simp [hlat, hlon]
      · simp [hd] at hg

theorem haversine_same_point (F : FloatOps) (hs : F.sin 0 = 0) (hq : F.sqrt 0 = 0)
    (ha : F.asin 0 = 0) (lat lon : ℚ) : haversine_distance F lat lon lat lon = 0 := by
  unfold haversine_distance
  simp [hs, hq, ha]

/-- Claim C1: the trending base score of an article is the sum, over exactly
its interaction events with `timestamp >= now - 24h`, of
`weight * exp(-(elapsed hours))`; an event older than the 24-hour window
contributes nothing to any article's base score. -/
theorem trending_base_score_window_sum :
    (∀ (F : FloatOps) (events : List Interaction) (now : ℚ) (aid : String),
      groupScore F events now 24 aid =
        ((events.filter
            (fun e => e.article_id == aid && decide (now - 24 * 3600 ≤ e.timestamp))).map
          (fun e => e.weight * F.exp (-|now - e.timestamp| / 3600))).sum)
    ∧ ∀ (F : FloatOps) (e : Interaction) (events : List Interaction) (now : ℚ) (aid : String),
      e.timestamp < now - 24 * 3600 →
      groupScore F (e :: events) now 24 aid = groupScore F events now 24 aid := by
  constructor
  · intro F events now aid
    have hfil : List.filter (fun e => e.article_id == aid)
        (List.filter (fun e => decide (now - 24 * 3600 ≤ e.timestamp)) events) =
        List.filter (fun e => e.article_id == aid && decide (now - 24 * 3600 ≤ e.timestamp))
          events := by
      rw [List.filter_filter]
    unfold groupScore eventsInWindow
    rw [hfil]
    rfl
  · intro F e events now aid hold
    unfold groupScore eventsInWindow
    rw [List.filter_cons_of_neg]
    simp only [decide_eq_true_eq, not_le]
    linarith

/-- Claim C2: each trending candidate with both coordinates gets final score
`baseScore * (1 + geoBonus)` with
`geoBonus = max(0, 1 - distanceKm/50)`; at exactly 50 km the bonus is 0 (the
final score is the base score) and at the query point it is 1 (the final
score doubles the base score). -/
theorem trending_geo_bonus_formula :
    (∀ (F : FloatOps) (db : List Article) (events : List Interaction) (now lat lon : ℚ)
        (limit : ℕ) (windowHours : ℚ) (a : Article) (s : ℚ),
      (a, s) ∈ trendingScored F db events now lat lon limit windowHours →
      ∃ b alat alon,
        (a, b) ∈ trendingCandidates F db events now limit windowHours ∧
        a.latitude = some alat ∧ a.longitude = some alon ∧
        s = b * (1 + max 0 (1 - haversine_distance F lat lon alat alon / 50)))
    ∧ (∀ (F : FloatOps) (db : List Article) (events : List Interaction) (now lat lon : ℚ)
        (limit : ℕ) (windowHours : ℚ) (a : Article) (b alat alon : ℚ),
      (a, b) ∈ trendingCandidates F db events now limit windowHours →
      a.latitude = some alat → a.longitude = some alon →
      haversine_distance F lat lon alat alon = 50 →
      (a, b) ∈ trendingScored F db events now lat lon limit windowHours)
    ∧ ∀ (F : FloatOps) (db : List Article) (events : List Interaction) (now lat lon : ℚ)
        (limit : ℕ) (windowHours : ℚ) (a : Article) (b : ℚ),
      F.sin 0 = 0 → F.sqrt 0 = 0 → F.asin 0 = 0 →
      (a, b) ∈ trendingCandidates F db events now limit windowHours →
      a.latitude = some lat → a.longitude = some lon →
      (a, 2 * b) ∈ trendingScored F db events now lat lon limit windowHours := by
  refine ⟨?_, ?_, ?_⟩
  · intro F db events now lat lon limit windowHours a s h
    exact (mem_trendingScored_iff F db events now lat lon limit windowHours a s).mp h
  · intro F db events now lat lon limit windowHours a b alat alon hmem hlat hlon hd
    refine (mem_trendingScored_iff F db events now lat lon limit windowHours a b).mpr
      ⟨b, alat, alon, hmem, hlat, hlon, ?_⟩
    rw [hd]
    norm_num
  · intro F db events now lat lon limit windowHours a b hs hq ha hmem hlat hlon
    refine (mem_trendingScored_iff F db events now lat lon limit windowHours a (2 * b)).mpr
      ⟨b, lat, lon, hmem, hlat, hlon, ?_⟩
    rw [haversine_same_point F hs hq ha lat lon]
    norm_num
    ring

/-- Claim C4: only the top `limit * 3` articles by base score are candidates;
an article outside the candidate list never appears in the trending result,
and the candidate list never exceeds `limit * 3` rows. -/
theorem trending_prefilter_cutoff :
    (∀ (F : FloatOps) (db : List Article) (events : List Interaction) (now lat lon : ℚ)
        (limit : ℕ) (windowHours : ℚ) (a : Article),
      a ∉ (trendingCandidates F db events now limit windowHours).map (fun p => p.1) →
      a ∉ trending_articles F db events now lat lon limit windowHours)
    ∧ ∀ (F : FloatOps) (db : List Article) (events : List Interaction) (now : ℚ)
        (limit : ℕ) (windowHours : ℚ),
      (trendingCandidates F db events now limit windowHours).length ≤ limit * 3 := by
  constructor
  · intro F db events now lat lon limit windowHours a hnot hmem
    apply hnot
    rcases mem_trending_articles F db events now lat lon limit windowHours a hmem with ⟨s, hs⟩
    rcases (mem_trendingScored_iff F db events now lat lon limit windowHours a s).mp hs with
      ⟨b, alat, alon, hcand, _, _, _⟩
    exact List.mem_map.mpr ⟨(a, b), hcand, rfl⟩
  · intro F db events now limit windowHours
    unfold trendingCandidates
    exact List.length_take_le _ _

/-- Claim C9: articles returned by the nearby lookup or the trending ranking
always carry both coordinates; when no trending candidate has both
coordinates the trending result is empty even if candidates with positive
base scores exist. -/
theorem geo_tagged_results_only :
    (∀ (F : FloatOps) (db : List Article) (lat lon radius_km : ℚ) (limit : ℕ) (a : Article),
      a ∈ list_by_nearby F db lat lon radius_km limit →
      a.latitude ≠ none ∧ a.longitude ≠ none)
    ∧ (∀ (F : FloatOps) (db : List Article) (events : List Interaction) (now lat lon : ℚ)
        (limit : ℕ) (windowHours : ℚ) (a : Article),
      a ∈ trending_articles F db events now lat lon limit windowHours →
      a.latitude ≠ none ∧ a.longitude ≠ none)
    ∧ ∀ (F : FloatOps) (db : List Article) (events : List Interaction) (now lat lon : ℚ)
        (limit : ℕ) (windowHours : ℚ),
      (∀ p ∈ trendingCandidates F db events now limit windowHours,
        p.1.latitude = none ∨ p.1.longitude = none) →
      trending_articles F db events now lat lon limit windowHours = [] := by
  refine ⟨?_, ?_, ?_⟩
  · intro F db lat lon radius_km limit a h
    have := mem_list_by_nearby_isSome F db lat lon radius_km limit a h
    exact ⟨Option.isSome_iff_ne_none.mp this.1, Option.isSome_iff_ne_none.mp this.2⟩
  · intro F db events now lat lon limit windowHours a h
    rcases mem_trending_articles F db events now lat lon limit windowHours a h with ⟨s, hs⟩
    rcases (mem_trendingScored_iff F db events now lat lon limit windowHours a s).mp hs with
      ⟨b, alat, alon, _, hlat, hlon, _⟩
    rw [hlat, hlon]
    exact ⟨Option.some_ne_none alat, Option.some_ne_none alon⟩
  · intro F db events now lat lon limit windowHours hall
    have hsc : trendingScored F db events now lat lon limit windowHours = [] := by
      unfold trendingScored
      rw [List.filterMap_eq_nil_iff]
      intro p hp
      rcases hall p hp with h | h
      · simp [h]
      · cases hl : p.1.latitude <;> simp [h, hl]
    unfold trending_articles
    rw [hsc]
    simp [sortDescBy]

/-- Witness for the C1 theorem: a concrete event at time 0, queried at time
100000, falls out of the 24-hour window and contributes nothing. -/
theorem trending_base_score_window_sum_witness :
    sampleEvent.timestamp < 100000 - 24 * 3600 ∧
    groupScore constOps [sampleEvent] 100000 24 "a" =
      groupScore constOps [] 100000 24 "a" :=
  ⟨by norm_num [sampleEvent],
    trending_base_score_window_sum.2 constOps sampleEvent [] 100000 "a"
      (by norm_num [sampleEvent])⟩

/-- Witness for the C2 theorem: at the origin the sample article's candidate
score 1 doubles to 2; under `fiftyOps` (distance 50 km) its score stays 1. -/
theorem trending_geo_bonus_formula_witness :
    (∃ b alat alon,
      (sampleArticle, b) ∈ trendingCandidates constOps [sampleArticle] [sampleEvent] 0 1 24 ∧
      sampleArticle.latitude = some alat ∧ sampleArticle.longitude = some alon ∧
      (2 : ℚ) = b * (1 + max 0 (1 - haversine_distance constOps 0 0 alat alon / 50)))
    ∧ (sampleArticle, (1 : ℚ)) ∈
        trendingScored fiftyOps [sampleArticle] [sampleEvent] 0 0 0 1 24
    ∧ (sampleArticle, 2 * (1 : ℚ)) ∈
        trendingScored constOps [sampleArticle] [sampleEvent] 0 0 0 1 24 :=
  ⟨trending_geo_bonus_formula.1 constOps [sampleArticle] [sampleEvent] 0 0 0 1 24
      sampleArticle 2
      (by norm_num [trendingScored, trendingCandidates, groupIds, eventsInWindow, groupScore,
        agePenalty, haversine_distance, sortDescBy, insertDescBy, constOps, sampleArticle,
        sampleEvent, List.dedup, List.dedup_cons_of_not_mem, List.filterMap_cons,
        List.filterMap_nil]),
    trending_geo_bonus_formula.2.1 fiftyOps [sampleArticle] [sampleEvent] 0 0 0 1 24
      sampleArticle 1 0 0
      (by norm_num [trendingCandidates, groupIds, eventsInWindow, groupScore,
        agePenalty, sortDescBy, insertDescBy, fiftyOps, sampleArticle, sampleEvent,
        List.dedup, List.dedup_cons_of_not_mem])
      rfl rfl (by norm_num [haversine_distance, fiftyOps]),
    trending_geo_bonus_formula.2.2 constOps [sampleArticle] [sampleEvent] 0 0 0 1 24
      sampleArticle 1 rfl rfl rfl
      (by norm_num [trendingCandidates, groupIds, eventsInWindow, groupScore,
        agePenalty, sortDescBy, insertDescBy, constOps, sampleArticle, sampleEvent,
        List.dedup, List.dedup_cons_of_not_mem])
      rfl rfl⟩

/-- Witness for the C4 theorem: with events only on the absent article `"b"`,
the candidate list is empty and the sample article cannot trend. -/
theorem trending_prefilter_cutoff_witness :
    sampleArticle ∉ trending_articles constOps [sampleArticle] [sampleEventB] 0 0 0 2 24 ∧
    (trendingCandidates constOps [sampleArticle] [sampleEventB] 0 2 24).length ≤ 2 * 3 :=
  ⟨trending_prefilter_cutoff.1 constOps [sampleArticle] [sampleEventB] 0 0 0 2 24
      sampleArticle
      (by norm_num [trendingCandidates, groupIds, eventsInWindow, groupScore,
        agePenalty, sortDescBy, insertDescBy, constOps, sampleArticle, sampleEventB,
        List.dedup, List.dedup_cons_of_not_mem]),
    trending_prefilter_cutoff.2 constOps [sampleArticle] [sampleEventB] 0 2 24⟩

/-- Witness for the C9 theorem: concrete nearby and trending results carry
coordinates, and a coordinate-free candidate list yields an empty trending
result. -/
theorem geo_tagged_results_only_witness :
    (sampleArticle.latitude ≠ none ∧ sampleArticle.longitude ≠ none) ∧
    (sampleArticle.latitude ≠ none ∧ sampleArticle.longitude ≠ none) ∧
    trending_articles constOps [sampleArticleNoGeo] [sampleEventB] 0 0 0 1 24 = [] :=
  ⟨geo_tagged_results_only.1 constOps [sampleArticle] 0 0 10 5 sampleArticle
      (by norm_num [list_by_nearby, haversine_distance, sortAscBy, insertAscBy, constOps,
        sampleArticle, List.filterMap_cons, List.filterMap_nil, List.filter]),
    geo_tagged_results_only.2.1 constOps [sampleArticle] [sampleEvent] 0 0 0 1 24
      sampleArticle
      (by norm_num [trending_articles, trendingScored, trendingCandidates, groupIds,
        eventsInWindow, groupScore, agePenalty, haversine_distance, sortDescBy, insertDescBy,
        constOps, sampleArticle, sampleEvent, List.dedup, List.dedup_cons_of_not_mem,
        List.filterMap_cons, List.filterMap_nil]),
    geo_tagged_results_only.2.2 constOps [sampleArticleNoGeo] [sampleEventB] 0 0 0 1 24
      (by norm_num [trendingCandidates, groupIds, eventsInWindow, groupScore,
        agePenalty, sortDescBy, insertDescBy, constOps, sampleArticleNoGeo, sampleEventB,
        List.dedup, List.dedup_cons_of_not_mem])⟩

/-- Claim C7: the dispatcher never raises on degenerate inputs: a score
intent whose non-empty value fails float parsing performs the score lookup
with the default threshold 0.7, and a nearby intent with missing coordinates
falls back to the search strategy with an empty query. -/
theorem resolve_query_degenerate_inputs :
    (∀ (F : FloatOps) (db : List Article) (v : String) (lat lon : Option ℚ) (limit : ℕ),
      v ≠ "" → pyFloat v = none →
      resolve_query F db "score" (some v) lat lon limit = list_by_score db (7 / 10) limit)
    ∧ ∀ (F : FloatOps) (db : List Article) (limit : ℕ),
      resolve_query F db "nearby" none none none limit = list_by_search db "" limit := by
  constructor
  · intro F db v lat lon limit hne hpf
    simp [resolve_query, truthy, orEmpty, hpf, hne, String.isEmpty_iff]
  · intro F db limit
    simp [resolve_query, truthy, orEmpty]

/-- Witness for the C7 theorem: `resolve("score", "abc", None, None, 5)` uses
threshold 0.7 and `resolve("nearby", None, None, None, 5)` searches with the
empty query. -/
theorem resolve_query_degenerate_inputs_witness :
    (∀ db : List Article, resolve_query constOps db "score" (some "abc") none none 5 =
      list_by_score db (7 / 10) 5)
    ∧ ∀ db : List Article, resolve_query constOps db "nearby" none none none 5 =
      list_by_search db "" 5 :=
  ⟨fun db => resolve_query_degenerate_inputs.1 constOps db "abc" none none 5
      (by decide)
      (by simp [pyFloat, isSpacePy, digitsVal]),
    fun db => resolve_query_degenerate_inputs.2 constOps db 5⟩

/-- Claim C8: free-text search ranks all stored articles descending by the
claimed per-token/relevance score truncated to `limit`, and a query whose
lower-cased whitespace-split token list is empty yields the empty result. -/
theorem search_ranking_formula :
    (∀ (db : List Article) (query : String) (limit : ℕ),
      searchTokens query = [] → list_by_search db query limit = [])
    ∧ ∀ (db : List Article) (query : String) (limit : ℕ),
      searchTokens query ≠ [] →
      list_by_search db query limit =
        (sortDescBy (claimSearchScore (searchTokens query)) db).take limit := by
  constructor
  · intro db query limit h
    simp [list_by_search, h]
  · intro db query limit h
    simp only [list_by_search]
    rw [if_neg (by simp [List.isEmpty_iff, h])]
    rw [sortDescBy_congr (searchKey (searchTokens query))
      (claimSearchScore (searchTokens query)) db
      (fun a _ => by unfold searchKey claimSearchScore; ring)]

/-- Witness for the C8 theorem: a whitespace-only query yields no results
and a concrete non-empty query is ranked by the claimed score. -/
theorem search_ranking_formula_witness :
    list_by_search [sampleArticle] "   " 5 = [] ∧
    list_by_search [sampleArticle] "zzz" 5 =
      (sortDescBy (claimSearchScore (searchTokens "zzz")) [sampleArticle]).take 5 :=
  ⟨search_ranking_formula.1 [sampleArticle] "   " 5
      (by simp [searchTokens, wordsBy, isSpacePy, pyLowerStr]),
    search_ranking_formula.2 [sampleArticle] "zzz" 5
      (by simp [searchTokens, wordsBy, isSpacePy, pyLowerStr])⟩

/-- Claim C10: with a non-empty token list, search never excludes zero-match
articles: an article matching no token in its title or description still
appears in the returned top-`limit` list whenever at most `limit` stored
articles (itself included) have a ranking key at least as large as its own,
and its ranking key is `relevanceScore * 0.5` alone. -/
theorem search_zero_match_still_ranked :
    ∀ (db : List Article) (query : String) (limit : ℕ) (a : Article),
      searchTokens query ≠ [] → a ∈ db →
      (∀ t ∈ searchTokens query,
        tokenCase (pyLowerStr a.title).data (pyLowerStr a.description).data t = 0) →
      db.countP (fun b => decide (searchKey (searchTokens query) a ≤
        searchKey (searchTokens query) b)) ≤ limit →
      a ∈ list_by_search db query limit ∧
      searchKey (searchTokens query) a = a.relevance_score * (1 / 2) := by
  intro db query limit a hne ha hzero hcount
  constructor
  · simp only [list_by_search]
    rw [if_neg (by simp [List.isEmpty_iff, hne])]
    have hp := sortDescBy_pairwise (searchKey (searchTokens query)) db
    have hmem := (mem_sortDescBy (searchKey (searchTokens query)) db a).mpr ha
    have hcount' : (sortDescBy (searchKey (searchTokens query)) db).countP
        (fun b => decide (searchKey (searchTokens query) a ≤
          searchKey (searchTokens query) b)) ≤ limit := by
      rw [(sortDescBy_perm (searchKey (searchTokens query)) db).countP_eq]
      exact hcount
    exact mem_take_of_countP_le (searchKey (searchTokens query)) _ limit a hp hmem hcount'
  · unfold searchKey
    rw [List.sum_eq_zero (fun x hx => by
      rcases List.mem_map.mp hx with ⟨t, ht, rfl⟩
      exact hzero t ht)]
    ring

/-- Witness for the C10 theorem: the sample article matches no token of
`"zzz"` yet is returned, ranked by `relevanceScore * 0.5` alone. -/
theorem search_zero_match_still_ranked_witness :
    sampleArticle ∈ list_by_search [sampleArticle] "zzz" 1 ∧
    searchKey (searchTokens "zzz") sampleArticle =
      sampleArticle.relevance_score * (1 / 2) :=
  search_zero_match_still_ranked [sampleArticle] "zzz" 1 sampleArticle
    (by simp [searchTokens, wordsBy, isSpacePy, pyLowerStr])
    (by simp)
    (by simp [searchTokens, wordsBy, isSpacePy, pyLowerStr, tokenCase, containsSubL,
      isPrefixOfL, sampleArticle])
    (List.countP_le_length
      (fun b => decide (searchKey (searchTokens "zzz") sampleArticle ≤
        searchKey (searchTokens "zzz") b)))

/-- Claim C5: the heuristic parser classifies intent in the claimed fixed
priority order (nearby, else category, else source, else score, else search)
by substring tests on the lower-cased text, and empty text yields the
`search` intent with empty entity, location and keyword lists. -/
theorem fallback_intent_priority :
    (∀ q : String, (fallback_parse q).intent = claimIntent q)
    ∧ fallback_parse "" = ⟨[], [], [], "search"⟩ :=
  ⟨fun _ => rfl, by
    simp [fallback_parse, fallback_entities, fallback_keywords, fallback_locations,
      fallback_intent, entityScanAux, wordsBy, pyLowerStr, containsS, containsSubL,
      isPrefixOfL, stopWords, gazetteer]⟩

theorem get_trending_articles_miss (F : FloatOps) (db : List Article)
    (events : List Interaction) (precision : ℚ) (cache : TTLCacheModel (List Article))
    (now lat lon : ℚ) (limit : ℕ)
    (h : cacheContains cache now (cache_key precision lat lon) = false) :
    get_trending_articles F db events precision cache now lat lon limit =
      (trending_articles F db events now lat lon limit,
        cacheInsert cache now (cache_key precision lat lon)
          (trending_articles F db events now lat lon limit), true) := by
  simp [get_trending_articles, h]

theorem get_trending_articles_hit (F : FloatOps) (db : List Article)
    (events : List Interaction) (precision : ℚ) (cache : TTLCacheModel (List Article))
    (now lat lon : ℚ) (limit : ℕ)
    (h : cacheContains cache now (cache_key precision lat lon) = true) :
    get_trending_articles F db events precision cache now lat lon limit =
      ((cacheGet cache now (cache_key precision lat lon)).getD [],
        cacheTouch cache (cache_key precision lat lon), false) := by
  simp [get_trending_articles, h]

theorem cacheInsert_empty (cache : TTLCacheModel (List Article)) (now : ℚ)
    (key : String) (v : List Article) (hemp : cache.entries = []) :
    (cacheInsert cache now key v).entries = [⟨key, now + cache.ttl, v⟩] := by
  simp [cacheInsert, hemp]

/-- Claim C3: with the default 0.5-degree bucket precision, two trending
calls whose coordinates quantize to the same bucket key within the TTL share
the cached list without invoking the trending pipeline again; after the TTL
elapses a subsequent call invokes it again; and inserting a fresh bucket into
the full 128-entry cache evicts the least-recently-used entry. -/
theorem trending_cache_behavior :
    (∀ (F : FloatOps) (db : List Article) (events : List Interaction)
        (cache : TTLCacheModel (List Article)) (now1 now2 lat1 lon1 lat2 lon2 : ℚ)
        (limit : ℕ),
      cache.entries = [] →
      cache_key (1 / 2) lat1 lon1 = cache_key (1 / 2) lat2 lon2 →
      now2 < now1 + cache.ttl →
      (get_trending_articles F db events (1 / 2) cache now1 lat1 lon1 limit).2.2 = true ∧
      (get_trending_articles F db events (1 / 2)
          (get_trending_articles F db events (1 / 2) cache now1 lat1 lon1 limit).2.1
          now2 lat2 lon2 limit).2.2 = false ∧
      (get_trending_articles F db events (1 / 2)
          (get_trending_articles F db events (1 / 2) cache now1 lat1 lon1 limit).2.1
          now2 lat2 lon2 limit).1 =
        (get_trending_articles F db events (1 / 2) cache now1 lat1 lon1 limit).1)
    ∧ (∀ (F : FloatOps) (db : List Article) (events : List Interaction)
        (cache : TTLCacheModel (List Article)) (now1 now2 lat1 lon1 lat2 lon2 : ℚ)
        (limit : ℕ),
      cache.entries = [] →
      cache_key (1 / 2) lat1 lon1 = cache_key (1 / 2) lat2 lon2 →
      now1 + cache.ttl ≤ now2 →
      (get_trending_articles F db events (1 / 2)
          (get_trending_articles F db events (1 / 2) cache now1 lat1 lon1 limit).2.1
          now2 lat2 lon2 limit).2.2 = true)
    ∧ ∀ (cache : TTLCacheModel (List Article)) (now : ℚ) (key : String) (v : List Article),
      cache.maxsize = 128 →
      cache.entries.length = 128 →
      (∀ e ∈ cache.entries, now < e.expiresAt) →
      (∀ e ∈ cache.entries, e.key ≠ key) →
      (cacheInsert cache now key v).entries =
        ⟨key, now + cache.ttl, v⟩ :: cache.entries.dropLast := by
  refine ⟨?_, ?_, ?_⟩
  · intro F db events cache now1 now2 lat1 lon1 lat2 lon2 limit hemp hkey htt
    have hm : cacheContains cache now1 (cache_key (1 / 2) lat1 lon1) = false := by
      simp [cacheContains, hemp]
    have h1 := get_trending_articles_miss F db events (1 / 2) cache now1 lat1 lon1 limit hm
    have hc1 := cacheInsert_empty cache now1 (cache_key (1 / 2) lat1 lon1)
      (trending_articles F db events now1 lat1 lon1 limit) hemp
    have hcont2 : cacheContains
        (cacheInsert cache now1 (cache_key (1 / 2) lat1 lon1)
          (trending_articles F db events now1 lat1 lon1 limit)) now2
        (cache_key (1 / 2) lat2 lon2) = true := by
      simp only [cacheContains, hc1, List.any_cons, List.any_nil, Bool.or_false,
        Bool.and_eq_true, beq_iff_eq, decide_eq_true_eq]
      exact ⟨hkey, htt⟩
    have h2 := get_trending_articles_hit F db events (1 / 2)
      (cacheInsert cache now1 (cache_key (1 / 2) lat1 lon1)
        (trending_articles F db events now1 lat1 lon1 limit)) now2 lat2 lon2 limit hcont2
    have hget : cacheGet
        (cacheInsert cache now1 (cache_key (1 / 2) lat1 lon1)
          (trending_articles F db events now1 lat1 lon1 limit)) now2
        (cache_key (1 / 2) lat2 lon2) =
        some (trending_articles F db events now1 lat1 lon1 limit) := by
      simp only [cacheGet, hc1]
      rw [List.find?_cons_of_pos]
      · rfl
      · simp only [Bool.and_eq_true, beq_iff_eq, decide_eq_true_eq]
        exact ⟨hkey, htt⟩
    rw [h1]
    refine ⟨rfl, ?_, ?_⟩
    · rw [h2]
    · rw [h2, hget]
      rfl
  · intro F db events cache now1 now2 lat1 lon1 lat2 lon2 limit hemp hkey htt
    have hm : cacheContains cache now1 (cache_key (1 / 2) lat1 lon1) = false := by
      simp [cacheContains, hemp]
    have h1 := get_trending_articles_miss F db events (1 / 2) cache now1 lat1 lon1 limit hm
    have hc1 := cacheInsert_empty cache now1 (cache_key (1 / 2) lat1 lon1)
      (trending_articles F db events now1 lat1 lon1 limit) hemp
    have hcont2 : cacheContains
        (cacheInsert cache now1 (cache_key (1 / 2) lat1 lon1)
          (trending_articles F db events now1 lat1 lon1 limit)) now2
        (cache_key (1 / 2) lat2 lon2) = false := by
      have hdec : decide (now2 < now1 + cache.ttl) = false :=
        decide_eq_false (not_lt.mpr htt)
      simp only [cacheContains, hc1, List.any_cons, List.any_nil, Bool.or_false, hdec,
        Bool.and_false]
    rw [h1]
    have h2 := get_trending_articles_miss F db events (1 / 2)
      (cacheInsert cache now1 (cache_key (1 / 2) lat1 lon1)
        (trending_articles F db events now1 lat1 lon1 limit)) now2 lat2 lon2 limit hcont2
    rw [h2]
  · intro cache now key v hms hlen hfresh hmiss
    have hlive : cache.entries.filter (fun e => decide (now < e.expiresAt)) = cache.entries :=
      List.filter_eq_self.mpr (fun e he => decide_eq_true (hfresh e he))
    have hwo : cache.entries.filter (fun e => !(e.key == key)) = cache.entries :=
      List.filter_eq_self.mpr (fun e he => by simp [hmiss e he])
    simp only [cacheInsert, hlive, hwo]
    rw [if_pos (by rw [hlen, hms])]

set_option maxRecDepth 8000 in
/-- Witness for the C3 theorem: with precision 0.5 the coordinates 0.1 and
0.2 quantize to the same bucket "0.00:0.00"; a second call at time 10
(TTL 300) reuses the cached list without recomputing, a call at time 300
recomputes, and inserting a 129th distinct bucket into a full 128-entry
cache evicts the least-recently-used entry. -/
theorem trending_cache_behavior_witness :
    ((get_trending_articles constOps [] [] (1 / 2) ⟨128, 300, []⟩ 0 (1 / 10) 0 1).2.2 = true ∧
      (get_trending_articles constOps [] [] (1 / 2)
          (get_trending_articles constOps [] [] (1 / 2) ⟨128, 300, []⟩ 0 (1 / 10) 0 1).2.1
          10 (2 / 10) 0 1).2.2 = false ∧
      (get_trending_articles constOps [] [] (1 / 2)
          (get_trending_articles constOps [] [] (1 / 2) ⟨128, 300, []⟩ 0 (1 / 10) 0 1).2.1
          10 (2 / 10) 0 1).1 =
        (get_trending_articles constOps [] [] (1 / 2) ⟨128, 300, []⟩ 0 (1 / 10) 0 1).1)
    ∧ (get_trending_articles constOps [] [] (1 / 2)
        (get_trending_articles constOps [] [] (1 / 2) ⟨128, 300, []⟩ 0 (1 / 10) 0 1).2.1
        300 (2 / 10) 0 1).2.2 = true
    ∧ (cacheInsert
          (⟨128, 300, (List.range 128).map (fun i => ⟨Nat.repr i, 1, []⟩)⟩ :
            TTLCacheModel (List Article)) 0 "x" []).entries =
        ⟨"x", 0 + 300, []⟩ ::
          ((List.range 128).map
            (fun i => (⟨Nat.repr i, 1, []⟩ : CacheEntry (List Article)))).dropLast :=
  ⟨trending_cache_behavior.1 constOps [] [] ⟨128, 300, []⟩ 0 10 (1 / 10) 0 (2 / 10) 0 1
      rfl
      (by norm_num [cache_key, fmt2, pyRoundQ, Rat.floor])
      (by show (10 : ℚ) < 0 + 300; norm_num),
    trending_cache_behavior.2.1 constOps [] [] ⟨128, 300, []⟩ 0 300 (1 / 10) 0 (2 / 10) 0 1
      rfl
      (by norm_num [cache_key, fmt2, pyRoundQ, Rat.floor])
      (by show (0 : ℚ) + 300 ≤ 300; norm_num),
    trending_cache_behavior.2.2
      ⟨128, 300, (List.range 128).map (fun i => ⟨Nat.repr i, 1, []⟩)⟩ 0 "x" []
      rfl (by decide) (by decide) (by decide)⟩

theorem takeWhile_append_all (p : Char → Bool) (l s : List Char) (h : l.all p = true) :
    (l ++ s).takeWhile p = l ++ s.takeWhile p := by
  induction l with
  | nil => simp
  | cons c l' ih =>
    simp only [List.all_cons, Bool.and_eq_true] at h
    simp [List.takeWhile_cons, h.1, ih h.2]

theorem dropWhile_append_all (p : Char → Bool) (l s : List Char) (h : l.all p = true) :
    (l ++ s).dropWhile p = s.dropWhile p := by
  induction l with
  | nil => simp
  | cons c l' ih =>
    simp only [List.all_cons, Bool.and_eq_true] at h
    simp [List.dropWhile_cons, h.1, ih h.2]

theorem joinW_cons (w : List Char) (ws : List (List Char)) :
    joinW (w :: ws) = w ++ sepJoin ws := by
  cases ws <;> simp [joinW, sepJoin]

theorem takeWhile_alpha_sepJoin (ws : List (List Char)) :
    (sepJoin ws).takeWhile isAlphaPy = [] := by
  cases ws <;> simp [sepJoin, List.takeWhile_cons, isAlphaPy, isUpperPy, isLowerPy]

theorem dropWhile_alpha_sepJoin (ws : List (List Char)) :
    (sepJoin ws).dropWhile isAlphaPy = sepJoin ws := by
  cases ws <;> simp [sepJoin, List.dropWhile_cons, isAlphaPy, isUpperPy, isLowerPy]

theorem entityScanAux_nil : entityScanAux [] = [] := by
  simp [entityScanAux]

theorem entityScanAux_cons_neg (c : Char) (rest : List Char)
    (h : (isUpperPy c && !(rest.takeWhile isAlphaPy).isEmpty) = false) :
    entityScanAux (c :: rest) = entityScanAux rest := by
  rw [entityScanAux]
  simp [h]

theorem entityScanAux_cons_pos (c : Char) (rest : List Char)
    (h : (isUpperPy c && !(rest.takeWhile isAlphaPy).isEmpty) = true) :
    entityScanAux (c :: rest) =
      (c :: (rest.takeWhile isAlphaPy ++ (extendRun (rest.dropWhile isAlphaPy)).1)) ::
        entityScanAux (extendRun (rest.dropWhile isAlphaPy)).2.1 := by
  rw [entityScanAux]
  simp [h]

theorem extendRun_fst_nil : (extendRun ([] : List Char)).1 = [] := by
  simp [extendRun]

theorem extendRun_snd_nil : (extendRun ([] : List Char)).2.1 = [] := by
  simp [extendRun]

theorem extendRun_fst_two (a b : Char) : (extendRun [a, b]).1 = [] := by
  simp [extendRun]

theorem extendRun_snd_two (a b : Char) : (extendRun [a, b]).2.1 = [a, b] := by
  simp [extendRun]

theorem extendRun_fst_neg (s c d : Char) (rest : List Char)
    (h : (isSpacePy s && isUpperPy c && isAlphaPy d) = false) :
    (extendRun (s :: c :: d :: rest)).1 = [] := by
  rw [extendRun]
  simp [h]

theorem extendRun_snd_neg (s c d : Char) (rest : List Char)
    (h : (isSpacePy s && isUpperPy c && isAlphaPy d) = false) :
    (extendRun (s :: c :: d :: rest)).2.1 = s :: c :: d :: rest := by
  rw [extendRun]
  simp [h]

theorem extendRun_fst_pos (s c d : Char) (rest : List Char)
    (h : (isSpacePy s && isUpperPy c && isAlphaPy d) = true) :
    (extendRun (s :: c :: d :: rest)).1 =
      s :: c :: d :: (rest.takeWhile isAlphaPy ++ (extendRun (rest.dropWhile isAlphaPy)).1) := by
  rw [extendRun]
  simp [h]

theorem extendRun_snd_pos (s c d : Char) (rest : List Char)
    (h : (isSpacePy s && isUpperPy c && isAlphaPy d) = true) :
    (extendRun (s :: c :: d :: rest)).2.1 =
      (extendRun (rest.dropWhile isAlphaPy)).2.1 := by
  rw [extendRun]
  simp [h]

theorem entityScanAux_skip_lower (l s : List Char)
    (h : l.all (fun c => !isUpperPy c) = true) :
    entityScanAux (l ++ s) = entityScanAux s := by
  induction l with
  | nil => simp
  | cons c l' ih =>
    simp only [List.all_cons, Bool.and_eq_true] at h
    have hc : isUpperPy c = false := by
      have h1 := h.1
      simpa using h1
    rw [List.cons_append, entityScanAux_cons_neg _ _ (by rw [hc]; rfl)]
    exact ih h.2

theorem entityScanAux_skip_word (w s : List Char)
    (hw : plainWord w = true) (hent : entWord w = false)
    (hsT : s.takeWhile isAlphaPy = []) :
    entityScanAux (w ++ s) = entityScanAux s := by
  cases w with
  | nil => simp [plainWord] at hw
  | cons c w1 =>
    simp only [plainWord, List.all_cons, List.tail_cons, Bool.and_eq_true] at hw
    cases w1 with
    | nil =>
      rw [List.singleton_append, entityScanAux_cons_neg _ _ (by rw [hsT]; simp)]
    | cons d rest =>
      simp only [List.all_cons, Bool.and_eq_true] at hw
      have hd : isAlphaPy d = true := hw.1.2.2.1
      have hall : rest.all isAlphaPy = true := hw.1.2.2.2
      have hc : isUpperPy c = false := by
        simp [entWord, hd, hall] at hent
        exact hent
      rw [List.cons_append, entityScanAux_cons_neg _ _ (by rw [hc]; rfl)]
      refine entityScanAux_skip_lower (d :: rest) s ?_
      simp only [List.all_cons, Bool.and_eq_true]
      exact hw.2

theorem entityScanAux_match_word (c d : Char) (rest s : List Char)
    (hent : entWord (c :: d :: rest) = true)
    (hsT : s.takeWhile isAlphaPy = []) (hsD : s.dropWhile isAlphaPy = s) :
    entityScanAux ((c :: d :: rest) ++ s) =
      ((c :: d :: rest) ++ (extendRun s).1) :: entityScanAux (extendRun s).2.1 := by
  simp only [entWord, Bool.and_eq_true] at hent
  have hallda : (d :: rest).all isAlphaPy = true := by
    simp only [List.all_cons, Bool.and_eq_true]
    exact ⟨hent.1.2, hent.2⟩
  have ht : ((d :: rest) ++ s).takeWhile isAlphaPy = d :: rest := by
    rw [takeWhile_append_all _ _ _ hallda, hsT, List.append_nil]
  have hdrop : ((d :: rest) ++ s).dropWhile isAlphaPy = s := by
    rw [dropWhile_append_all _ _ _ hallda, hsD]
  rw [List.cons_append,
    entityScanAux_cons_pos c ((d :: rest) ++ s) (by rw [ht]; simp [hent.1]),
    ht, hdrop]
  simp

theorem extendRun_sepJoin (ws : List (List Char))
    (hnice : ∀ w ∈ ws, plainWord w = true) :
    (extendRun (sepJoin ws)).1 = sepJoin (ws.takeWhile entWord) ∧
    (extendRun (sepJoin ws)).2.1 = sepJoin (ws.dropWhile entWord) := by
  induction ws with
  | nil => simp [sepJoin, extendRun_fst_nil, extendRun_snd_nil]
  | cons w ws' ih =>
    have hw := hnice w (List.mem_cons_self w ws')
    have ih' := ih (fun v hv => hnice v (List.mem_cons_of_mem w hv))
    by_cases hent : entWord w = true
    · cases w with
      | nil => simp [entWord] at hent
      | cons c w1 =>
        cases w1 with
        | nil => simp [entWord] at hent
        | cons d rest =>
          have hsep : sepJoin ((c :: d :: rest) :: ws') =
              ' ' :: c :: d :: (rest ++ sepJoin ws') := by
            simp [sepJoin, joinW_cons]
          simp only [entWord, Bool.and_eq_true] at hent
          have hcond : (isSpacePy ' ' && isUpperPy c && isAlphaPy d) = true := by
            simp [isSpacePy, hent.1.1, hent.1.2]
          have htw : (rest ++ sepJoin ws').takeWhile isAlphaPy = rest := by
            rw [takeWhile_append_all _ _ _ hent.2, takeWhile_alpha_sepJoin,
              List.append_nil]
          have hdw : (rest ++ sepJoin ws').dropWhile isAlphaPy = sepJoin ws' := by
            rw [dropWhile_append_all _ _ _ hent.2, dropWhile_alpha_sepJoin]
          have hpos : entWord (c :: d :: rest) = true := by
            simp [entWord, hent.1.1, hent.1.2, hent.2]
          constructor
          · rw [hsep, extendRun_fst_pos _ _ _ _ hcond, htw, hdw, ih'.1,
              List.takeWhile_cons_of_pos hpos]
            simp [sepJoin, joinW_cons]
          · rw [hsep, extendRun_snd_pos _ _ _ _ hcond, hdw, ih'.2,
              List.dropWhile_cons_of_pos hpos]
    · have hentf : entWord w = false := by
        cases hh : entWord w
        · rfl
        · exact absurd hh hent
      have htk : List.takeWhile entWord (w :: ws') = [] :=
        List.takeWhile_cons_of_neg (by simp [hentf])
      have hdk : List.dropWhile entWord (w :: ws') = w :: ws' :=
        List.dropWhile_cons_of_neg (by simp [hentf])
      cases w with
      | nil => simp [plainWord] at hw
      | cons c w1 =>
        cases w1 with
        | nil =>
          cases ws' with
          | nil =>
            have hsep : sepJoin [[c]] = [' ', c] := by simp [sepJoin, joinW]
            constructor
            · rw [hsep, extendRun_fst_two, htk]
              rfl
            · rw [hsep, extendRun_snd_two, hdk, hsep]
          | cons v ws'' =>
            have hsep : sepJoin ([c] :: v :: ws'') = ' ' :: c :: ' ' :: joinW (v :: ws'') := by
              simp [sepJoin, joinW_cons]
            have hcond : (isSpacePy ' ' && isUpperPy c && isAlphaPy ' ') = false := by
              simp [isAlphaPy, isUpperPy, isLowerPy]
            constructor
            · rw [hsep, extendRun_fst_neg _ _ _ _ hcond, htk]
              rfl
            · rw [hsep, extendRun_snd_neg _ _ _ _ hcond, hdk, hsep]
        | cons d rest =>
          have hd : isAlphaPy d = true := by
            simp only [plainWord, List.all_cons, List.tail_cons, Bool.and_eq_true] at hw
            tauto
          have hall : rest.all isAlphaPy = true := by
            simp only [plainWord, List.all_cons, List.tail_cons, Bool.and_eq_true] at hw
            tauto
          have hc : isUpperPy c = false := by
            simp [entWord, hd, hall] at hentf
            exact hentf
          have hsep : sepJoin ((c :: d :: rest) :: ws') =
              ' ' :: c :: d :: (rest ++ sepJoin ws') := by
            simp [sepJoin, joinW_cons]
          have hcond : (isSpacePy ' ' && isUpperPy c && isAlphaPy d) = false := by
            simp [hc]
          constructor
          · rw [hsep, extendRun_fst_neg _ _ _ _ hcond, htk]
            rfl
          · rw [hsep, extendRun_snd_neg _ _ _ _ hcond, hdk, hsep]

theorem runsBy_nil (p : α → Bool) : runsBy p [] = [] := by
  simp [runsBy]

theorem runsBy_cons_pos (p : α → Bool) (a : α) (as : List α) (h : p a = true) :
    runsBy p (a :: as) = (a :: as.takeWhile p) :: runsBy p (as.dropWhile p) := by
  rw [runsBy]
  simp [h]

theorem runsBy_cons_neg (p : α → Bool) (a : α) (as : List α) (h : p a = false) :
    runsBy p (a :: as) = runsBy p as := by
  rw [runsBy]
  simp [h]

theorem entityScanAux_joinW (n : ℕ) : ∀ (ws : List (List Char)), ws.length ≤ n →
    (∀ w ∈ ws, plainWord w = true) →
    entityScanAux (joinW ws) = (runsBy entWord ws).map joinW := by
  induction n with
  | zero =>
    intro ws hle _
    have hnil : ws = [] := List.eq_nil_of_length_eq_zero (Nat.le_zero.mp hle)
    subst hnil
    simp [joinW, runsBy_nil, entityScanAux_nil]
  | succ n ih =>
    intro ws hle hnice
    cases ws with
    | nil => simp [joinW, runsBy_nil, entityScanAux_nil]
    | cons w ws' =>
      have hw := hnice w (List.mem_cons_self w ws')
      have hnice' : ∀ v ∈ ws', plainWord v = true :=
        fun v hv => hnice v (List.mem_cons_of_mem w hv)
      have hle' : ws'.length ≤ n := by
        simp only [List.length_cons] at hle
        omega
      rw [joinW_cons]
      by_cases hent : entWord w = true
      · cases w with
        | nil => simp [entWord] at hent
        | cons c w1 =>
          cases w1 with
          | nil => simp [entWord] at hent
          | cons d rest =>
            rw [entityScanAux_match_word c d rest (sepJoin ws') hent
              (takeWhile_alpha_sepJoin ws') (dropWhile_alpha_sepJoin ws')]
            have he := extendRun_sepJoin ws' hnice'
            rw [he.1, he.2, runsBy_cons_pos _ _ _ hent]
            simp only [List.map_cons]
            congr 1
            · rw [joinW_cons]
            · cases hdrop : ws'.dropWhile entWord with
              | nil => simp [sepJoin, entityScanAux_nil, runsBy_nil]
              | cons v vs =>
                rw [show sepJoin (v :: vs) = ' ' :: joinW (v :: vs) from rfl]
                rw [entityScanAux_cons_neg ' ' _ (by simp [isUpperPy])]
                refine ih (v :: vs) ?_ ?_
                · have hsub : (ws'.dropWhile entWord).length ≤ ws'.length :=
                    (List.dropWhile_sublist entWord).length_le
                  rw [hdrop] at hsub
                  omega
                · intro v' hv'
                  refine hnice' v' ?_
                  have hsub : ws'.dropWhile entWord ⊆ ws' :=
                    (List.dropWhile_sublist entWord).subset
                  rw [hdrop] at hsub
                  exact hsub hv'
      · have hentf : entWord w = false := by
          cases hh : entWord w
          · rfl
          · exact absurd hh hent
        rw [entityScanAux_skip_word w (sepJoin ws') hw hentf (takeWhile_alpha_sepJoin ws'),
          runsBy_cons_neg _ _ _ hentf]
        cases ws' with
        | nil => simp [sepJoin, entityScanAux_nil, runsBy_nil]
        | cons v vs =>
          rw [show sepJoin (v :: vs) = ' ' :: joinW (v :: vs) from rfl]
          rw [entityScanAux_cons_neg ' ' _ (by simp [isUpperPy])]
          exact ih (v :: vs) hle' hnice'

/-- Counterexample to claim C6 as stated: on the text "A Cat" the code's
entity extraction yields ["Cat"] — the regex word `[A-Z][a-zA-Z]+` requires
at least two letters, so the capitalized single-letter word "A" cannot start
an entity — while the maximal runs of capitalized words give ["A Cat"]. -/
theorem fallback_entities_counterexample :
    fallback_entities "A Cat" ≠ claimEntities "A Cat" ∧
    fallback_entities "A Cat" = ["Cat"] ∧ claimEntities "A Cat" = ["A Cat"] := by
  refine ⟨?_, ?_, ?_⟩ <;>
    simp [fallback_entities, claimEntities, entityScanAux, extendRun, wordsBy, runsBy,
      joinW, capWordClaim, isUpperPy, isAlphaPy, isLowerPy, isSpacePy]

/-- Claim C6 amended: over texts made of single-space-separated, letter-only
words with no uppercase letter after a word's first character, the extracted
entities are exactly the maximal runs of consecutive capitalized words of at
least two letters (full matches of the regex word `[A-Z][a-zA-Z]+`), each
run joined by single spaces — on other texts the regex can also start a
match in the middle of a word — and the locations are exactly the entities
whose lower-cased form lies in the fixed gazetteer. -/
theorem fallback_entities_amended :
    (∀ ws : List (List Char), (∀ w ∈ ws, plainWord w = true) →
      entityScanAux (joinW ws) = (runsBy entWord ws).map joinW)
    ∧ ∀ q : String, fallback_locations q =
        (fallback_entities q).filter (fun t => gazetteer.contains (pyLowerStr t)) :=
  ⟨fun ws h => entityScanAux_joinW ws.length ws (Nat.le_refl _) h, fun _ => rfl⟩

/-- Witness for the amended C6 theorem on the words "Visit San Francisco":
the single maximal capitalized run is the whole phrase. -/
theorem fallback_entities_amended_witness :
    entityScanAux (joinW [['V', 'i', 's', 'i', 't'], ['S', 'a', 'n'],
        ['F', 'r', 'a', 'n', 'c', 'i', 's', 'c', 'o']]) =
      (runsBy entWord [['V', 'i', 's', 'i', 't'], ['S', 'a', 'n'],
        ['F', 'r', 'a', 'n', 'c', 'i', 's', 'c', 'o']]).map joinW :=
  fallback_entities_amended.1 _ (by decide)

end Inshorts
